import Mathlib

/-!
Verification of `keystone/overlay.py` (filesystem-overlay manager) against its
specification. The Python module is shallowly embedded: every external process
invocation (`subprocess.check_call`) and every filesystem mutation
(`os.mkdir`, `os.makedirs`, `tempfile.mkdtemp`, `open(p, 'a').close()`) is
recorded as an `Event` in an explicit trace, and the mutable object state of
`Overlay` (`self._mounts`, `self._overlay_dirs`) is threaded through as a
`St` record. `tempfile.mkdtemp`'s fresh directory names are modelled by a
counter-indexed name supply. CPython object finalization (which the module
relies on for teardown: `Mount.__del__`) is modelled by `Mount.del` together
with the runtime's per-object "finalizer already ran" flag (PEP 442) and by
the fact that deallocating a CPython list drops its elements last-to-first,
so the `_mounts` list finalizes its mounts in reverse acquisition order.
-/

namespace Keystone

/-- Filesystem paths, as the Python strings. -/
abbrev Path := String

/-- Translation of `os.path.join a b` for a relative component `b` (the only way the module
uses it): `a ++ "/" ++ b`. -/
def pjoin (a b : Path) : Path := a ++ "/" ++ b

/-- What a path is in the pre-existing filesystem. -/
inductive FKind where
  | file
  | dir
  | missing
deriving DecidableEq, Repr

/-- One observable action of the module: an external command invocation
(`subprocess.check_call argv`), a directory creation (`os.mkdir` /
`os.makedirs`), a fresh temporary directory (`tempfile.mkdtemp`), or an
empty-file creation (`open(p, 'a').close()`). -/
inductive Event where
  | cmd : List String → Event
  | mkdirE : Path → Event
  | mkdtempE : Path → Event
  | touch : Path → Event
deriving DecidableEq, Repr

/-- The commands invoked in a trace, in order. -/
def cmdsOf : List Event → List (List String)
  | [] => []
  | .cmd c :: r => c :: cmdsOf r
  | _ :: r => cmdsOf r

/-- Python `class Mount`: owns the command used to mount and the one used to
unmount. `finalized` is not a Python attribute: it is the CPython runtime's
per-object flag recording that the finalizer (`__del__`) has already been
invoked, so it is never invoked a second time (PEP 442). -/
structure Mount where
  mount_command : Option (List String)
  unmount_command : Option (List String)
  finalized : Bool
deriving DecidableEq, Repr

/-- Constructor `Mount.__init__(mount_command, unmount_command)`: both attributes are set
to `None`, then `subprocess.check_call(mount_command)` runs (always emitted to
the trace; `ok` is its exit status). On success the attributes are assigned;
on failure `CalledProcessError` propagates and the partially constructed
object — both attributes still `None` — is all that remains (returned in the
`error` case so its finalization can be examined). -/
def mountNew (ok : Bool) (mc uc : List String) : List Event × Except Mount Mount :=
  ([Event.cmd mc],
   if ok then .ok ⟨some mc, some uc, false⟩ else .error ⟨none, none, false⟩)

/-- Finalizer `Mount.__del__`: `if self.unmount_command: subprocess.check_call(...)`.
Invoked by the runtime at most once per object: a finalized object is not
finalized again, hence the guard on `finalized`. A `CalledProcessError`
raised inside `__del__` is swallowed by the CPython runtime ("Exception
ignored"), so finalization never propagates an error and the command is
recorded unconditionally. -/
def Mount.del (m : Mount) : List Event × Mount :=
  if m.finalized then ([], m)
  else
    match m.unmount_command with
    | some c => ([Event.cmd c], { m with finalized := true })
    | none => ([], { m with finalized := true })

/-- Boolean list membership for paths (CPython `in` on a list of strings). -/
def memb (p : Path) : List Path → Bool
  | [] => false
  | q :: r => p == q || memb p r

/-- Association-list lookup: the module's process-wide configuration dicts
(`OVERLAY_MAP`, `FS_VIEW_MAP`) in insertion order. -/
def lookupA {α : Type} : List (String × α) → String → Option α
  | [], _ => none
  | (k, v) :: r, t => if k == t then some v else lookupA r t

/-- The exceptions `Overlay.__init__` can raise: `KeyError` from the
`OVERLAY_MAP[target]` lookup, `ValueError` from a remap source that is
neither file nor directory (carrying the offending path), and
`CalledProcessError` from a failing external command (carrying the command). -/
inductive PyErr where
  | keyError : String → PyErr
  | valueError : Path → PyErr
  | calledProcessError : List String → PyErr
deriving DecidableEq, Repr

/-- The read-only environment of a run: the pre-existing filesystem and the
exit status of each external command. -/
structure Ctx where
  fs0 : Path → FKind
  execOk : List String → Bool

/-- The mutable state of a run: directories and files created so far (so
`os.path.*` queries see them), the `mkdtemp` name counter, the event trace,
and the `Overlay` object's own attributes `_mounts` and `_overlay_dirs`. -/
structure St where
  dirsMade : List Path := []
  filesMade : List Path := []
  ctr : Nat := 0
  trace : List Event := []
  mounts : List Mount := []
  overlay_dirs : Option (List Path) := none
deriving DecidableEq, Repr

/-- Query `os.path.isfile p`. -/
def isfileS (cx : Ctx) (s : St) (p : Path) : Bool :=
  (match cx.fs0 p with | .file => true | _ => false) || memb p s.filesMade

/-- Query `os.path.isdir p`. -/
def isdirS (cx : Ctx) (s : St) (p : Path) : Bool :=
  (match cx.fs0 p with | .dir => true | _ => false) || memb p s.dirsMade

/-- Query `os.path.exists p` (the module only queries paths that are files or
directories, never other node kinds). -/
def pexistsS (cx : Ctx) (s : St) (p : Path) : Bool :=
  isfileS cx s p || isdirS cx s p

/-- Effect of `os.mkdir p` / `os.makedirs p` (recorded as creating `p`; the module
never later queries a strict ancestor created implicitly by `makedirs`). -/
def mkdirS (p : Path) (s : St) : St :=
  { s with dirsMade := s.dirsMade ++ [p], trace := s.trace ++ [Event.mkdirE p] }

/-- Effect of `tempfile.mkdtemp(prefix=pre)`: a fresh directory under `/tmp`, named
from the counter (the real names carry a random suffix; only freshness and
the prefix matter to the module). -/
def mkdtempS (pre : String) (s : St) : Path × St :=
  let p := "/tmp/" ++ pre ++ toString s.ctr
  (p, { s with
          ctr := s.ctr + 1
          dirsMade := s.dirsMade ++ [p]
          trace := s.trace ++ [Event.mkdtempE p] })

/-- Effect of `open(p, 'a').close()`: creates an empty file at `p` when none exists
(the module only does this at a fresh path inside a fresh `mkdtemp`
directory, so the result is a zero-byte file). -/
def touchS (p : Path) (s : St) : St :=
  { s with filesMade := s.filesMade ++ [p], trace := s.trace ++ [Event.touch p] }

/-- Translation of `os.path.dirname p` (for the slash-joined relative paths the module
passes; the posix root edge case never arises). -/
def dirnameS (p : Path) : Path :=
  String.intercalate "/" (p.splitOn "/").dropLast

/-- Method `Overlay._AddMount`: construct a `Mount` (running its mount command) and
append it to `self._mounts`. On a non-zero exit the `CalledProcessError`
propagates out of `Mount.__init__`, so nothing is appended. -/
def addMountS (cx : Ctx) (mc uc : List String) (s : St) :
    Except (PyErr × St) St :=
  let r := mountNew (cx.execOk mc) mc uc
  let s := { s with trace := s.trace ++ r.1 }
  match r.2 with
  | .ok m => .ok { s with mounts := s.mounts ++ [m] }
  | .error _ => .error (.calledProcessError mc, s)

/-- The `if not os.path.exists(p): os.makedirs(p)` statement pattern used by
`_BindMount`, `_CopyFileMount` and `__init__`. -/
def makedirsIfMissingS (cx : Ctx) (p : Path) (s : St) : St :=
  if pexistsS cx s p then s else mkdirS p s

/-- Method `Overlay._BindMount(source_dir, dest_dir)`. -/
def bindMountS (cx : Ctx) (source_dir dest_dir : Path) (s : St) :
    Except (PyErr × St) St :=
  let s := makedirsIfMissingS cx dest_dir s
  addMountS cx ["sudo", "mount", "--bind", source_dir, dest_dir]
    ["sudo", "umount", dest_dir] s

/-- Method `Overlay._CopyFileMount(source_path, dest_path)`. -/
def copyFileMountS (cx : Ctx) (source_path dest_path : Path) (s : St) :
    Except (PyErr × St) St :=
  let dest_dir := dirnameS dest_path
  let s := makedirsIfMissingS cx dest_dir s
  addMountS cx ["cp", source_path, dest_path] ["rm", "-f", dest_path] s

/-- The union-mount command assembled by `Overlay._MountOverlay` from the
already-appended `lowerdirs` list and the per-target upper/work dirs. -/
def overlayMountCmd (source_dir : Path) (lowerdirs : List Path)
    (upperdir workdir : Path) : List String :=
  ["sudo", "mount", "--types", "overlay", "--options",
   "lowerdir=" ++ String.intercalate ":" lowerdirs ++ "," ++
     "upperdir=" ++ upperdir ++ "," ++ "workdir=" ++ workdir,
   "overlay", source_dir]

/-- The `if not os.path.isdir(p): os.mkdir(p)` statement pattern of
`Overlay._MountOverlay`. -/
def ensureDirS (cx : Ctx) (p : Path) (s : St) : St :=
  if isdirS cx s p then s else mkdirS p s

/-- Method `Overlay._MountOverlay(source_dir, overlay_dirs, target)`. In Python
`lowerdirs = overlay_dirs; lowerdirs.append(source_dir)` mutates the caller's
list — the mutated list is therefore returned so the caller sees the
aliasing, exactly as `Overlay.__init__`'s `overlay_dirs` does. -/
def mountOverlayS (cx : Ctx) (source_dir : Path) (overlay_dirs : List Path)
    (target : String) (s : St) : Except (PyErr × St) (List Path × St) :=
  let lowerdirs := overlay_dirs ++ [source_dir]
  let overlay_out_dir := pjoin (pjoin source_dir "out") "overlays"
  let target_out_dir := pjoin overlay_out_dir target
  let workdir := pjoin target_out_dir "work"
  let upperdir := pjoin target_out_dir "artifacts"
  let s := ensureDirS cx overlay_out_dir s
  let s := ensureDirS cx target_out_dir s
  let s := ensureDirS cx workdir s
  let s := ensureDirS cx upperdir s
  match addMountS cx (overlayMountCmd source_dir lowerdirs upperdir workdir)
      ["sudo", "umount", source_dir] s with
  | .ok s => .ok (lowerdirs, s)
  | .error e => .error e

/-- The per-rule loop over `FS_VIEW_MAP[target]` in `Overlay.__init__`:
file sources get a `_CopyFileMount` into the dynamic overlay dir, directory
sources get an intermediate `_BindMount` into a fresh `bindtmp_` dir plus a
deferred post-overlay bind recorded in `post`, and anything else raises
`ValueError` (carried as the offending path). -/
def fsViewStep (cx : Ctx) (source_dir dynamic_overlay_dir : Path) :
    List (Path × Path) → St → List (Path × Path) →
    Except (PyErr × St) (St × List (Path × Path))
  | [], s, post => .ok (s, post)
  | (path_relative_from, path_relative_to) :: rest, s, post =>
    let path_from := pjoin source_dir path_relative_from
    if isfileS cx s path_from then
      let path_to := pjoin dynamic_overlay_dir path_relative_to
      match copyFileMountS cx path_from path_to s with
      | .ok s => fsViewStep cx source_dir dynamic_overlay_dir rest s post
      | .error e => .error e
    else if isdirS cx s path_from then
      let path_to := pjoin source_dir path_relative_to
      match mkdtempS "bindtmp_" s with
      | (bind_intermediate_dir, s) =>
        match bindMountS cx path_from bind_intermediate_dir s with
        | .ok s =>
          fsViewStep cx source_dir dynamic_overlay_dir rest s
            (post ++ [(bind_intermediate_dir, path_to)])
        | .error e => .error e
    else
      .error (.valueError path_from, s)

/-- The trailing loop of `Overlay.__init__`: re-apply every deferred bind
mount (the preserved `out` directory first, then each directory remap) now
that the union mount exists. -/
def postBindsS (cx : Ctx) : List (Path × Path) → St → Except (PyErr × St) St
  | [], s => .ok s
  | (path_from, path_to) :: rest, s =>
    match bindMountS cx path_from path_to s with
    | .ok s => postBindsS cx rest s
    | .error e => .error e

/-- Constructor `Overlay.__init__(target, source_dir)`, line by line. The configuration
dicts are parameters (they are process-wide mutable globals in Python,
extended by the unit tests). On an exception the partially constructed
object's state is returned in the `error` case: its acquired mounts are still
alive, pending runtime finalization. -/
def overlayInit (cx : Ctx) (overlayMap : List (String × List String))
    (fsViewMap : List (String × List (Path × Path)))
    (target : String) (source_dir : Path) : Except (PyErr × St) St :=
  let s : St := {}
  let out_dir := pjoin source_dir "out"
  let s := makedirsIfMissingS cx out_dir s
  match mkdtempS "outtmp_" s with
  | (original_out_dir, s) =>
    match bindMountS cx out_dir original_out_dir s with
    | .error e => .error e
    | .ok s =>
      let post : List (Path × Path) := [(original_out_dir, out_dir)]
      match lookupA overlayMap target with
      | none => .error (.keyError target, s)
      | some layers =>
        let overlay_dirs :=
          layers.map (fun d => pjoin (pjoin source_dir "overlays") d)
        match mkdtempS "ovtmp_" s with
        | (dynamic_overlay_dir, s) =>
          let overlay_dirs := overlay_dirs ++ [dynamic_overlay_dir]
          let overlay_whiteout := pjoin dynamic_overlay_dir "overlays"
          let s := touchS overlay_whiteout s
          let rules := (lookupA fsViewMap target).getD []
          match fsViewStep cx source_dir dynamic_overlay_dir rules s post with
          | .error e => .error e
          | .ok (s, post) =>
            match mountOverlayS cx source_dir overlay_dirs target s with
            | .error e => .error e
            | .ok (overlay_dirs, s) =>
              let s := { s with overlay_dirs := some overlay_dirs }
              postBindsS cx post s

/-- Finalize a list of `Mount`s in the order given, collecting the release
events. -/
def delAll : List Mount → List Event × List Mount
  | [] => ([], [])
  | m :: ms =>
    let r := Mount.del m
    let rr := delAll ms
    (r.1 ++ rr.1, r.2 :: rr.2)

/-- Session teardown: the runtime finalizes the `Overlay` object
(`Overlay.__del__` only prints) and then deallocates its `_mounts` list,
which drops — and hence finalizes — the `Mount` objects from the last list
element down to the first (CPython list deallocation order), each at most
once (PEP 442). Returns the release events and the state afterwards. -/
def teardown (s : St) : List Event × St :=
  let r := delAll s.mounts.reverse
  (r.1, { s with mounts := r.2.reverse })

/-- Table `OVERLAY_MAP` from `overlay_configs.py`. -/
def OVERLAY_MAP : List (String × List String) :=
  [("sdm845", ["qcom-LA.UM.7.3-incoming", "keystone"]),
   ("sdm845_8.3", ["qcom-LA.UM.8.3.r1-incoming", "keystone"]),
   ("sdm845_gms", ["qcom-LA.UM.7.3-incoming", "gms"]),
   ("sdm660_64", ["qcom-LA.UM.7.2-incoming"]),
   ("cuttlestone_x86_phone", ["cuttlestone"]),
   ("msmnile", ["qcom-LA.UM.7.1.r1-incoming"]),
   ("msm8937_32go", []),
   ("aosp_arm64", ["cuttlestone"]),
   ("aosp_x86_64", ["cuttlestone"])]

/-- Table `_AOSP_COMPATIBLE_FS_VIEW` from `overlay_configs.py`. -/
def AOSP_COMPATIBLE_FS_VIEW : List (Path × Path) :=
  [("overlays/qcom-LA.UM.7.3-incoming/vendor/qcom/opensource/interfaces",
    "vendor/qcom/opensource/interfaces"),
   ("overlays/qcom-LA.UM.7.3-incoming/vendor/qcom/proprietary/interfaces",
    "vendor/qcom/proprietary/interfaces"),
   ("overlays/qcom-LA.UM.7.3-incoming/vendor/qcom/proprietary/commonsys-intf/telephony",
    "vendor/qcom/proprietary/commonsys-intf/telephony"),
   ("overlays/qcom-LA.UM.7.3-incoming/vendor/codeaurora/commonsys/telephony",
    "vendor/codeaurora/commonsys/telephony"),
   ("overlays/qcom-LA.UM.7.3-incoming/vendor/qcom/proprietary/commonsys/telephony-apps",
    "vendor/qcom/proprietary/commonsys/telephony-apps"),
   ("overlays/qcom-LA.UM.7.3-incoming/vendor/qcom/opensource/commonsys-intf/display",
    "vendor/qcom/opensource/commonsys-intf/display"),
   ("overlays/qcom-LA.UM.7.3-incoming/vendor/qcom/opensource/commonsys/dpm",
    "vendor/qcom/opensource/commonsys/dpm"),
   ("overlays/qcom-LA.UM.7.3-incoming/hardware/qcom/bt", "hardware/qcom/bt"),
   ("overlays/qcom-LA.UM.7.3-incoming/vendor/qcom/opensource/commonsys/bluetooth",
    "vendor/qcom/opensource/commonsys/bluetooth"),
   ("overlays/qcom-LA.UM.7.3-incoming/vendor/qcom/opensource/commonsys/bluetooth_ext",
    "vendor/qcom/opensource/commonsys/bluetooth_ext"),
   ("overlays/qcom-LA.UM.7.3-incoming/vendor/qcom/opensource/commonsys/system/bt",
    "vendor/qcom/opensource/commonsys/system/bt"),
   ("overlays/qcom-LA.UM.7.3-incoming/vendor/qcom/opensource/core-utils/build/vendor_hal_makefile_generator.sh",
    "device/qcom/common/vendor_hal_makefile_generator.sh"),
   ("overlays/qcom-LA.UM.7.3-incoming/vendor/qcom/opensource/core-utils/build/stop_scan.mk",
    "vendor/qcom/proprietary/commonsys/Android.mk")]

/-- Table `FS_VIEW_MAP` from `overlay_configs.py`. -/
def FS_VIEW_MAP : List (String × List (Path × Path)) :=
  [("cuttlestone_x86_phone", AOSP_COMPATIBLE_FS_VIEW),
   ("aosp_arm64", AOSP_COMPATIBLE_FS_VIEW),
   ("aosp_x86_64", AOSP_COMPATIBLE_FS_VIEW)]

/-- A filesystem in which every path is an existing directory. -/
def fsAllDir : Path → FKind := fun _ => FKind.dir

/-- A filesystem in which `q` is a regular file and every other path is an
existing directory. -/
def fsFileAt (q : Path) : Path → FKind :=
  fun p => if p = q then FKind.file else FKind.dir

/-- A filesystem in which `q` is absent and every other path is an existing
directory. -/
def fsMissingAt (q : Path) : Path → FKind :=
  fun p => if p = q then FKind.missing else FKind.dir

/-- An environment where every command succeeds, over the given filesystem. -/
def ctxAll (fs : Path → FKind) : Ctx := ⟨fs, fun _ => true⟩

/-- The state carried by a run result, whether it succeeded or raised. -/
def stOf : Except (PyErr × St) St → St
  | .ok s => s
  | .error (_, s) => s

/-- The acquire commands of a list of mounts, in acquisition order. -/
def acqCmds (ms : List Mount) : List (List String) :=
  ms.map (fun m => m.mount_command.getD [])

/-- The release events a list of live mounts will produce, in list order. -/
def relEvents (ms : List Mount) : List Event :=
  ms.map (fun m => Event.cmd (m.unmount_command.getD []))

/-- Fully constructed, not-yet-finalized mounts. -/
def goodMounts (ms : List Mount) : Prop :=
  ∀ m ∈ ms, m.finalized = false ∧ m.mount_command.isSome ∧ m.unmount_command.isSome

/-- Invariant of every state `Overlay.__init__` passes through: the commands
invoked so far are exactly the acquire commands of `self._mounts`, in order,
and every mount in the list is live. -/
def TraceInv (s : St) : Prop :=
  cmdsOf s.trace = acqCmds s.mounts ∧ goodMounts s.mounts

/-- All-directories filesystem with every command succeeding. -/
def ctxDirs : Ctx := ctxAll fsAllDir

/-- The session state from a successful run on target `sdm845` at source
root `/src` over `ctxDirs`. -/
def sdmRun : St := stOf (overlayInit ctxDirs OVERLAY_MAP FS_VIEW_MAP "sdm845" "/src")

/-- Filesystem in which exactly the first `aosp_arm64` remap source is
missing (neither file nor directory) and every other path is a directory,
over succeeding commands. -/
def ctx3 : Ctx := ctxAll (fsMissingAt
  "/src/overlays/qcom-LA.UM.7.3-incoming/vendor/qcom/opensource/interfaces")

/-- The partially constructed session state from the failing `aosp_arm64`
run over `ctx3`. -/
def badRun : St := stOf (overlayInit ctx3 OVERLAY_MAP FS_VIEW_MAP "aosp_arm64" "/src")

/-- Relation: `s` evolves from `base` by filesystem-only events: no commands, no new
mounts, `_overlay_dirs` untouched, invariant preserved. -/
def Quiet (base s : St) : Prop :=
  (∃ t, s.trace = base.trace ++ t ∧ cmdsOf t = []) ∧
  s.mounts = base.mounts ∧ s.overlay_dirs = base.overlay_dirs ∧
  s.ctr = base.ctr ∧ (TraceInv base → TraceInv s)


@[simp] theorem cmdsOf_nil : cmdsOf [] = [] := rfl

@[simp] theorem cmdsOf_cons_cmd (c : List String) (r : List Event) :
    cmdsOf (Event.cmd c :: r) = c :: cmdsOf r := rfl

@[simp] theorem cmdsOf_cons_mkdir (p : Path) (r : List Event) :
    cmdsOf (Event.mkdirE p :: r) = cmdsOf r := rfl

@[simp] theorem cmdsOf_cons_mkdtemp (p : Path) (r : List Event) :
    cmdsOf (Event.mkdtempE p :: r) = cmdsOf r := rfl

@[simp] theorem cmdsOf_cons_touch (p : Path) (r : List Event) :
    cmdsOf (Event.touch p :: r) = cmdsOf r := rfl

@[simp] theorem cmdsOf_append (a b : List Event) :
    cmdsOf (a ++ b) = cmdsOf a ++ cmdsOf b := by
  induction a with
  | nil => rfl
  | cons e r ih => cases e <;> simp [ih]

theorem del_finalized (m : Mount) : (Mount.del m).2.finalized = true := by
  unfold Mount.del
  by_cases h : m.finalized = true
  · simp [h]
  · cases hm : m.unmount_command <;> simp [h, hm]

theorem delAll_finalized (ms : List Mount) :
    ∀ m ∈ (delAll ms).2, m.finalized = true := by
  induction ms with
  | nil => simp [delAll]
  | cons m ms ih =>
    intro x hx
    simp only [delAll, List.mem_cons] at hx
    rcases hx with h | h
    · subst h; exact del_finalized m
    · exact ih x h

theorem delAll_of_finalized (ms : List Mount) (h : ∀ m ∈ ms, m.finalized = true) :
    (delAll ms).1 = [] := by
  induction ms with
  | nil => rfl
  | cons m ms ih =>
    have hm := h m (by simp)
    have hr := ih (fun x hx => h x (by simp [hx]))
    simp [delAll, Mount.del, hm, hr]

/-- C5: teardown invoked a second time on the same session performs no
additional external process invocations and raises no error. After the first
teardown every `Mount` carries the runtime's finalized flag, so each further
release request is a no-op: the second pass produces an empty event trace
(and the teardown function is total, so no error is raised). -/
theorem teardown_twice_noop (s : St) : (teardown (teardown s).2).1 = [] := by
  unfold teardown
  simp only [List.reverse_reverse]
  exact delAll_of_finalized _ (delAll_finalized s.mounts.reverse)

/-- C6: the release command runs at most once per handle, and only if the
acquire succeeded. A failing acquire command is still invoked once (the trace
`[cmd mc]`) but produces only the partially constructed object with both
attributes `None`, and finalizing that object runs no release command; a
successful acquire produces the live handle, whose finalization runs the
release exactly once — finalizing any mount a second time runs nothing. -/
theorem mount_release_at_most_once (mc uc : List String) (m : Mount) :
    (mountNew false mc uc).2 = .error ⟨none, none, false⟩ ∧
    (mountNew false mc uc).1 = [Event.cmd mc] ∧
    (Mount.del ⟨none, none, false⟩).1 = [] ∧
    (mountNew true mc uc).2 = .ok ⟨some mc, some uc, false⟩ ∧
    (Mount.del ⟨some mc, some uc, false⟩).1 = [Event.cmd uc] ∧
    ((Mount.del m).2.del).1 = [] := by
  refine ⟨rfl, rfl, rfl, rfl, rfl, ?_⟩
  have h := del_finalized m
  generalize (Mount.del m).2 = m' at h
  simp [Mount.del, h]

theorem traceInv_init : TraceInv {} := by
  constructor
  · rfl
  · intro m hm; simp at hm

theorem addMountS_ok (cx : Ctx) (hex : ∀ c, cx.execOk c = true)
    (mc uc : List String) (s : St) :
    addMountS cx mc uc s =
      .ok { s with
              trace := s.trace ++ [Event.cmd mc]
              mounts := s.mounts ++ [⟨some mc, some uc, false⟩] } := by
  simp [addMountS, mountNew, hex]

theorem traceInv_appendMount (s : St) (mc uc : List String) (h : TraceInv s) :
    TraceInv { s with
                 trace := s.trace ++ [Event.cmd mc]
                 mounts := s.mounts ++ [⟨some mc, some uc, false⟩] } := by
  obtain ⟨h1, h2⟩ := h
  constructor
  · simp [acqCmds] at h1 ⊢
    simp [h1]
  · intro m hm
    simp only [List.mem_append, List.mem_singleton] at hm
    rcases hm with hm | hm
    · exact h2 m hm
    · subst hm; exact ⟨rfl, rfl, rfl⟩

theorem traceInv_mkdirS (p : Path) (s : St) (h : TraceInv s) :
    TraceInv (mkdirS p s) := by
  obtain ⟨h1, h2⟩ := h
  exact ⟨by simpa [mkdirS] using h1, h2⟩

theorem traceInv_ifMkdir (b : Bool) (p : Path) (s : St) (h : TraceInv s) :
    TraceInv (if b then s else mkdirS p s) := by
  cases b
  · simpa using traceInv_mkdirS p s h
  · simpa using h

theorem traceInv_mkdtempS (pre : String) (s : St) (h : TraceInv s) :
    TraceInv (mkdtempS pre s).2 := by
  obtain ⟨h1, h2⟩ := h
  exact ⟨by simpa [mkdtempS] using h1, h2⟩

theorem traceInv_touchS (p : Path) (s : St) (h : TraceInv s) :
    TraceInv (touchS p s) := by
  obtain ⟨h1, h2⟩ := h
  exact ⟨by simpa [touchS] using h1, h2⟩

@[simp] theorem ifMkdir_mounts (b : Bool) (p : Path) (s : St) :
    (if b then s else mkdirS p s).mounts = s.mounts := by
  cases b <;> simp [mkdirS]

@[simp] theorem ifMkdir_overlay_dirs (b : Bool) (p : Path) (s : St) :
    (if b then s else mkdirS p s).overlay_dirs = s.overlay_dirs := by
  cases b <;> simp [mkdirS]

theorem ifMkdir_trace (b : Bool) (p : Path) (s : St) :
    ∃ t, (if b then s else mkdirS p s).trace = s.trace ++ t ∧ cmdsOf t = [] := by
  cases b
  · exact ⟨[Event.mkdirE p], by simp [mkdirS], rfl⟩
  · exact ⟨[], by simp, rfl⟩

theorem makedirs_quiet (cx : Ctx) (p : Path) {base s : St} (h : Quiet base s) :
    Quiet base (makedirsIfMissingS cx p s) := by
  obtain ⟨⟨t, ht, hc⟩, hm, ho, hr, hi⟩ := h
  unfold makedirsIfMissingS
  split
  · exact ⟨⟨t, ht, hc⟩, hm, ho, hr, hi⟩
  · refine ⟨⟨t ++ [Event.mkdirE p], by simp [mkdirS, ht], by simp [hc]⟩,
      by simp [mkdirS, hm], by simp [mkdirS, ho], by simp [mkdirS, hr],
      fun hb => traceInv_mkdirS _ _ (hi hb)⟩

theorem quiet_refl (s : St) : Quiet s s := ⟨⟨[], by simp, rfl⟩, rfl, rfl, rfl, id⟩

theorem bindMountS_run (cx : Ctx) (hex : ∀ c, cx.execOk c = true)
    (a b : Path) (s : St) :
    ∃ s' t, bindMountS cx a b s = .ok s' ∧ cmdsOf t = [] ∧
      s'.trace = s.trace ++ t ++ [Event.cmd ["sudo", "mount", "--bind", a, b]] ∧
      s'.mounts = s.mounts ++ [⟨some ["sudo", "mount", "--bind", a, b],
                                some ["sudo", "umount", b], false⟩] ∧
      s'.overlay_dirs = s.overlay_dirs ∧ s'.ctr = s.ctr ∧
      (TraceInv s → TraceInv s') := by
  unfold bindMountS
  rw [addMountS_ok cx hex]
  obtain ⟨⟨t, ht, htc⟩, hm, ho, hr, hi⟩ := makedirs_quiet cx b (quiet_refl s)
  refine ⟨_, t, rfl, htc, ?_, ?_, ?_, ?_, ?_⟩
  · simp [ht]
  · simp [hm]
  · simp [ho]
  · simp [hr]
  · intro h
    exact traceInv_appendMount _ _ _ (hi h)

theorem copyFileMountS_run (cx : Ctx) (hex : ∀ c, cx.execOk c = true)
    (a b : Path) (s : St) :
    ∃ s' t, copyFileMountS cx a b s = .ok s' ∧ cmdsOf t = [] ∧
      s'.trace = s.trace ++ t ++ [Event.cmd ["cp", a, b]] ∧
      s'.mounts = s.mounts ++ [⟨some ["cp", a, b], some ["rm", "-f", b], false⟩] ∧
      s'.overlay_dirs = s.overlay_dirs ∧ s'.ctr = s.ctr ∧
      (TraceInv s → TraceInv s') := by
  unfold copyFileMountS
  rw [addMountS_ok cx hex]
  obtain ⟨⟨t, ht, htc⟩, hm, ho, hr, hi⟩ := makedirs_quiet cx (dirnameS b) (quiet_refl s)
  refine ⟨_, t, rfl, htc, ?_, ?_, ?_, ?_, ?_⟩
  · simp [ht]
  · simp [hm]
  · simp [ho]
  · simp [hr]
  · intro h
    exact traceInv_appendMount _ _ _ (hi h)

@[simp] theorem ifMkdir_ctr (b : Bool) (p : Path) (s : St) :
    (if b then s else mkdirS p s).ctr = s.ctr := by
  cases b <;> simp [mkdirS]

theorem mkdtempS_snd_trace (pre : String) (s : St) :
    (mkdtempS pre s).2.trace = s.trace ++ [Event.mkdtempE (mkdtempS pre s).1] := by
  simp [mkdtempS]

@[simp] theorem mkdtempS_snd_overlay_dirs (pre : String) (s : St) :
    (mkdtempS pre s).2.overlay_dirs = s.overlay_dirs := by
  simp [mkdtempS]

@[simp] theorem mkdtempS_snd_mounts (pre : String) (s : St) :
    (mkdtempS pre s).2.mounts = s.mounts := by
  simp [mkdtempS]

theorem fsViewStep_run (cx : Ctx) (sd dyn : Path) (hex : ∀ c, cx.execOk c = true) :
    ∀ (rules : List (Path × Path)) (s : St) (post : List (Path × Path)),
      TraceInv s →
      (match fsViewStep cx sd dyn rules s post with
       | .ok (s', _) =>
           TraceInv s' ∧ (∃ t, s'.trace = s.trace ++ t) ∧
           s'.overlay_dirs = s.overlay_dirs
       | .error (_, s') =>
           TraceInv s' ∧ (∃ t, s'.trace = s.trace ++ t) ∧
           s'.overlay_dirs = s.overlay_dirs) := by
  intro rules
  induction rules with
  | nil =>
    intro s post h
    exact ⟨h, ⟨[], by simp⟩, rfl⟩
  | cons r rest ih =>
    intro s post h
    obtain ⟨rf, rt⟩ := r
    simp only [fsViewStep]
    by_cases hf : isfileS cx s (pjoin sd rf) = true
    · rw [if_pos hf]
      obtain ⟨s1, t1, heq, htc, htr, hm, ho, hr1, hinv⟩ :=
        copyFileMountS_run cx hex (pjoin sd rf) (pjoin dyn rt) s
      rw [heq]
      have H := ih s1 post (hinv h)
      cases hres : fsViewStep cx sd dyn rest s1 post with
      | ok v =>
        obtain ⟨s', post'⟩ := v
        rw [hres] at H
        simp only [hres]
        obtain ⟨H1, ⟨t, H2⟩, H3⟩ := H
        refine ⟨H1, ⟨t1 ++ [Event.cmd ["cp", pjoin sd rf, pjoin dyn rt]] ++ t, ?_⟩, H3.trans ho⟩
        rw [H2, htr]; simp
      | error e =>
        obtain ⟨pe, s'⟩ := e
        rw [hres] at H
        simp only [hres]
        obtain ⟨H1, ⟨t, H2⟩, H3⟩ := H
        refine ⟨H1, ⟨t1 ++ [Event.cmd ["cp", pjoin sd rf, pjoin dyn rt]] ++ t, ?_⟩, H3.trans ho⟩
        rw [H2, htr]; simp
    · rw [if_neg hf]
      by_cases hd : isdirS cx s (pjoin sd rf) = true
      · rw [if_pos hd]
        have hMidInv : TraceInv (mkdtempS "bindtmp_" s).2 := traceInv_mkdtempS _ _ h
        obtain ⟨s1, t1, heq, htc, htr, hm, ho, hr1, hinv⟩ :=
          bindMountS_run cx hex (pjoin sd rf) (mkdtempS "bindtmp_" s).1 (mkdtempS "bindtmp_" s).2
        rw [heq]
        have H := ih s1 (post ++ [((mkdtempS "bindtmp_" s).1, pjoin sd rt)]) (hinv hMidInv)
        cases hres : fsViewStep cx sd dyn rest s1 (post ++ [((mkdtempS "bindtmp_" s).1, pjoin sd rt)]) with
        | ok v =>
          obtain ⟨s', post'⟩ := v
          rw [hres] at H
          simp only [hres]
          obtain ⟨H1, ⟨t, H2⟩, H3⟩ := H
          refine ⟨H1, ⟨[Event.mkdtempE (mkdtempS "bindtmp_" s).1] ++ t1 ++
            [Event.cmd ["sudo", "mount", "--bind", pjoin sd rf, (mkdtempS "bindtmp_" s).1]] ++ t, ?_⟩,
            (H3.trans ho).trans (mkdtempS_snd_overlay_dirs _ _)⟩
          rw [H2, htr, mkdtempS_snd_trace]; simp
        | error e =>
          obtain ⟨pe, s'⟩ := e
          rw [hres] at H
          simp only [hres]
          obtain ⟨H1, ⟨t, H2⟩, H3⟩ := H
          refine ⟨H1, ⟨[Event.mkdtempE (mkdtempS "bindtmp_" s).1] ++ t1 ++
            [Event.cmd ["sudo", "mount", "--bind", pjoin sd rf, (mkdtempS "bindtmp_" s).1]] ++ t, ?_⟩,
            (H3.trans ho).trans (mkdtempS_snd_overlay_dirs _ _)⟩
          rw [H2, htr, mkdtempS_snd_trace]; simp
      · rw [if_neg hd]
        exact ⟨h, ⟨[], by simp⟩, rfl⟩

theorem postBindsS_run (cx : Ctx) (hex : ∀ c, cx.execOk c = true) :
    ∀ (ps : List (Path × Path)) (s : St), TraceInv s →
      ∃ s', postBindsS cx ps s = .ok s' ∧ TraceInv s' ∧
        (∃ t, s'.trace = s.trace ++ t) ∧ s'.overlay_dirs = s.overlay_dirs := by
  intro ps
  induction ps with
  | nil =>
    intro s h
    exact ⟨s, rfl, h, ⟨[], by simp⟩, rfl⟩
  | cons pr rest ih =>
    intro s h
    obtain ⟨pf, pt⟩ := pr
    simp only [postBindsS]
    obtain ⟨s1, t1, heq, htc, htr, hm, ho, hr1, hinv⟩ := bindMountS_run cx hex pf pt s
    rw [heq]
    obtain ⟨s', hres, hinv', ⟨t, htr'⟩, ho'⟩ := ih s1 (hinv h)
    refine ⟨s', hres, hinv', ⟨t1 ++ [Event.cmd ["sudo", "mount", "--bind", pf, pt]] ++ t, ?_⟩,
      ho'.trans ho⟩
    rw [htr', htr]; simp

theorem quiet_ensure (cx : Ctx) (p : Path) {base s : St} (h : Quiet base s) :
    Quiet base (ensureDirS cx p s) := by
  obtain ⟨⟨t, ht, hc⟩, hm, ho, hr, hi⟩ := h
  unfold ensureDirS
  split
  · exact ⟨⟨t, ht, hc⟩, hm, ho, hr, hi⟩
  · refine ⟨⟨t ++ [Event.mkdirE p], by simp [mkdirS, ht], by simp [hc]⟩,
      by simp [mkdirS, hm], by simp [mkdirS, ho], by simp [mkdirS, hr],
      fun hb => traceInv_mkdirS _ _ (hi hb)⟩

theorem mountOverlayS_run (cx : Ctx) (hex : ∀ c, cx.execOk c = true)
    (sd : Path) (dirs : List Path) (target : String) (s : St) :
    ∃ s', mountOverlayS cx sd dirs target s = .ok (dirs ++ [sd], s') ∧
      (∃ t, cmdsOf t = [] ∧ s'.trace = s.trace ++ t ++
        [Event.cmd (overlayMountCmd sd (dirs ++ [sd])
          (pjoin (pjoin (pjoin (pjoin sd "out") "overlays") target) "artifacts")
          (pjoin (pjoin (pjoin (pjoin sd "out") "overlays") target) "work"))]) ∧
      s'.mounts = s.mounts ++
        [⟨some (overlayMountCmd sd (dirs ++ [sd])
            (pjoin (pjoin (pjoin (pjoin sd "out") "overlays") target) "artifacts")
            (pjoin (pjoin (pjoin (pjoin sd "out") "overlays") target) "work")),
          some ["sudo", "umount", sd], false⟩] ∧
      s'.overlay_dirs = s.overlay_dirs ∧ s'.ctr = s.ctr ∧
      (TraceInv s → TraceInv s') := by
  simp only [mountOverlayS]
  rw [addMountS_ok cx hex]
  have hq : Quiet s
      (ensureDirS cx (pjoin (pjoin (pjoin (pjoin sd "out") "overlays") target) "artifacts")
        (ensureDirS cx (pjoin (pjoin (pjoin (pjoin sd "out") "overlays") target) "work")
          (ensureDirS cx (pjoin (pjoin (pjoin sd "out") "overlays") target)
            (ensureDirS cx (pjoin (pjoin sd "out") "overlays") s)))) :=
    quiet_ensure cx _ (quiet_ensure cx _ (quiet_ensure cx _ (quiet_ensure cx _ (quiet_refl s))))
  obtain ⟨⟨t, ht, hc⟩, hm, ho, hr, hi⟩ := hq
  refine ⟨_, rfl, ⟨t, hc, ?_⟩, ?_, ?_, ?_, ?_⟩
  · simp [ht]
  · simp [hm]
  · simp [ho]
  · simp [hr]
  · intro h
    exact traceInv_appendMount _ _ _ (hi h)

theorem mkdtempS_fst (pre : String) (s : St) :
    (mkdtempS pre s).1 = "/tmp/" ++ pre ++ toString s.ctr := rfl

@[simp] theorem mkdtempS_snd_ctr (pre : String) (s : St) :
    (mkdtempS pre s).2.ctr = s.ctr + 1 := by simp [mkdtempS]

@[simp] theorem touchS_trace (p : Path) (s : St) :
    (touchS p s).trace = s.trace ++ [Event.touch p] := rfl

@[simp] theorem touchS_overlay_dirs (p : Path) (s : St) :
    (touchS p s).overlay_dirs = s.overlay_dirs := rfl

@[simp] theorem touchS_ctr (p : Path) (s : St) : (touchS p s).ctr = s.ctr := rfl

theorem overlayInit_run (cx : Ctx) (hex : ∀ c, cx.execOk c = true)
    (om : List (String × List String)) (fm : List (String × List (Path × Path)))
    (target : String) (sd : Path) :
    (match overlayInit cx om fm target sd with
     | .ok s =>
         TraceInv s ∧
         ∃ layers, lookupA om target = some layers ∧
           s.overlay_dirs = some (layers.map (fun d => pjoin (pjoin sd "overlays") d) ++
             ["/tmp/ovtmp_1", sd]) ∧
           ∃ t1 t2,
             s.trace = t1 ++ [Event.touch (pjoin "/tmp/ovtmp_1" "overlays")] ++ t2 ∧
             Event.mkdtempE "/tmp/ovtmp_1" ∈ t1 ∧
             Event.cmd (overlayMountCmd sd
               (layers.map (fun d => pjoin (pjoin sd "overlays") d) ++ ["/tmp/ovtmp_1", sd])
               (pjoin (pjoin (pjoin (pjoin sd "out") "overlays") target) "artifacts")
               (pjoin (pjoin (pjoin (pjoin sd "out") "overlays") target) "work")) ∈ t2
     | .error (_, s) => TraceInv s) := by
  simp only [overlayInit]
  obtain ⟨⟨tq, htq, hcq⟩, hmq, hoq, hrq, hiq⟩ :=
    makedirs_quiet cx (pjoin sd "out") (quiet_refl ({} : St))
  have hI0 : TraceInv (makedirsIfMissingS cx (pjoin sd "out") {}) := hiq traceInv_init
  have hI1 : TraceInv (mkdtempS "outtmp_" (makedirsIfMissingS cx (pjoin sd "out") {})).2 :=
    traceInv_mkdtempS _ _ hI0
  obtain ⟨s2, tb, heqB, hcb, htrb, hmb, hob, hrb, hib⟩ :=
    bindMountS_run cx hex (pjoin sd "out")
      (mkdtempS "outtmp_" (makedirsIfMissingS cx (pjoin sd "out") {})).1
      (mkdtempS "outtmp_" (makedirsIfMissingS cx (pjoin sd "out") {})).2
  simp only [heqB]
  have hI2 : TraceInv s2 := hib hI1
  have hctr2 : s2.ctr = 1 := by
    rw [hrb, mkdtempS_snd_ctr, hrq]
  cases hlk : lookupA om target with
  | none => exact hI2
  | some layers =>
    have hdyn : (mkdtempS "ovtmp_" s2).1 = "/tmp/ovtmp_1" := by
      rw [mkdtempS_fst, hctr2]; rfl
    rw [hdyn]
    have hs3tr : (mkdtempS "ovtmp_" s2).2.trace =
        s2.trace ++ [Event.mkdtempE "/tmp/ovtmp_1"] := by
      rw [mkdtempS_snd_trace, hdyn]
    have hI3 : TraceInv (touchS (pjoin "/tmp/ovtmp_1" "overlays") (mkdtempS "ovtmp_" s2).2) :=
      traceInv_touchS _ _ (traceInv_mkdtempS _ _ hI2)
    have H := fsViewStep_run cx sd "/tmp/ovtmp_1" hex ((lookupA fm target).getD [])
      (touchS (pjoin "/tmp/ovtmp_1" "overlays") (mkdtempS "ovtmp_" s2).2)
      [((mkdtempS "outtmp_" (makedirsIfMissingS cx (pjoin sd "out") {})).1, pjoin sd "out")]
      hI3
    cases hres : fsViewStep cx sd "/tmp/ovtmp_1" ((lookupA fm target).getD [])
        (touchS (pjoin "/tmp/ovtmp_1" "overlays") (mkdtempS "ovtmp_" s2).2)
        [((mkdtempS "outtmp_" (makedirsIfMissingS cx (pjoin sd "out") {})).1, pjoin sd "out")] with
    | error e =>
      obtain ⟨pe, se⟩ := e
      rw [hres] at H
      simp only [hres]
      exact H.1
    | ok v =>
      obtain ⟨s5, post'⟩ := v
      rw [hres] at H
      simp only [hres]
      obtain ⟨hI5, ⟨t5, htr5⟩, ho5⟩ := H
      obtain ⟨s6, heqM, ⟨t6, hc6, htr6⟩, hm6, ho6, hr6, hi6⟩ :=
        mountOverlayS_run cx hex sd
          (layers.map (fun d => pjoin (pjoin sd "overlays") d) ++ ["/tmp/ovtmp_1"]) target s5
      simp only [heqM]
      set L := (layers.map (fun d => pjoin (pjoin sd "overlays") d) ++ ["/tmp/ovtmp_1"]) ++ [sd] with hL
      have hI7 : TraceInv { s6 with overlay_dirs := some L } := hi6 hI5
      obtain ⟨s8, heqP, hI8, ⟨t8, htr8⟩, ho8⟩ :=
        postBindsS_run cx hex post' { s6 with overlay_dirs := some L } hI7
      simp only [heqP]
      refine ⟨hI8, layers, rfl, ?_, ?_⟩
      · rw [ho8]
        simp [hL]
      · refine ⟨(mkdtempS "ovtmp_" s2).2.trace, t5 ++ t6 ++ [Event.cmd (overlayMountCmd sd
          ((layers.map (fun d => pjoin (pjoin sd "overlays") d) ++ ["/tmp/ovtmp_1"]) ++ [sd])
          (pjoin (pjoin (pjoin (pjoin sd "out") "overlays") target) "artifacts")
          (pjoin (pjoin (pjoin (pjoin sd "out") "overlays") target) "work"))] ++ t8, ?_, ?_, ?_⟩
        · rw [htr8, htr6, htr5]
          simp [hL]
        · rw [hs3tr]
          simp
        · simp [hL]

theorem delAll_of_good (ms : List Mount) (h : goodMounts ms) :
    (delAll ms).1 = relEvents ms := by
  induction ms with
  | nil => rfl
  | cons m ms ih =>
    obtain ⟨hf, hmc, huc⟩ := h m (by simp)
    have hr := ih (fun x hx => h x (by simp [hx]))
    obtain ⟨uc, huc'⟩ := Option.isSome_iff_exists.mp huc
    simp [delAll, Mount.del, hf, huc', relEvents, List.map_cons] at hr ⊢
    simpa [relEvents] using hr

theorem teardown_of_good (s : St) (h : goodMounts s.mounts) :
    (teardown s).1 = (relEvents s.mounts).reverse := by
  unfold teardown
  have hrev : goodMounts s.mounts.reverse := fun m hm => h m (List.mem_reverse.mp hm)
  rw [delAll_of_good _ hrev]
  simp [relEvents]

/-- C4: for every valid target, a successful setup immediately followed by
teardown runs exactly one release command per acquire command, in exactly
the reverse of acquisition order: the setup trace's commands are the acquire
commands of the session's mounts in order, and the teardown trace is the
reversed list of their release commands (same length). -/
theorem open_close_reverse (cx : Ctx) (om : List (String × List String))
    (fm : List (String × List (Path × Path))) (target : String) (sd : Path) (s : St)
    (hex : ∀ c, cx.execOk c = true)
    (h : overlayInit cx om fm target sd = .ok s) :
    cmdsOf s.trace = acqCmds s.mounts ∧
    (teardown s).1 = (relEvents s.mounts).reverse ∧
    (teardown s).1.length = (cmdsOf s.trace).length := by
  have H := overlayInit_run cx hex om fm target sd
  rw [h] at H
  obtain ⟨⟨h1, h2⟩, _⟩ := H
  refine ⟨h1, teardown_of_good s h2, ?_⟩
  rw [teardown_of_good s h2, h1]
  simp [relEvents, acqCmds]

theorem open_close_reverse_check :
    cmdsOf sdmRun.trace = acqCmds sdmRun.mounts ∧
    (teardown sdmRun).1 = (relEvents sdmRun.mounts).reverse ∧
    (teardown sdmRun).1.length = (cmdsOf sdmRun.trace).length :=
  open_close_reverse ctxDirs OVERLAY_MAP FS_VIEW_MAP "sdm845" "/src" sdmRun
    (fun _ => rfl) rfl

/-- C10: the union-mount step mutates, by aliasing, the very overlay list the
session built — `lowerdirs` is the same list object into which the source
root is appended — so after every successful setup the stored
`_overlay_dirs` (the list reported as applied overlays) is exactly the
`lowerdir` list of the issued union-mount command: the configured overlay
directories followed by the synthetic layer and then the source root. -/
theorem overlay_dirs_aliased (cx : Ctx) (om : List (String × List String))
    (fm : List (String × List (Path × Path))) (target : String) (sd : Path)
    (layers : List String) (s : St)
    (hex : ∀ c, cx.execOk c = true)
    (hl : lookupA om target = some layers)
    (h : overlayInit cx om fm target sd = .ok s) :
    s.overlay_dirs = some (layers.map (fun d => pjoin (pjoin sd "overlays") d) ++
      ["/tmp/ovtmp_1", sd]) ∧
    Event.cmd (overlayMountCmd sd
      (layers.map (fun d => pjoin (pjoin sd "overlays") d) ++ ["/tmp/ovtmp_1", sd])
      (pjoin (pjoin (pjoin (pjoin sd "out") "overlays") target) "artifacts")
      (pjoin (pjoin (pjoin (pjoin sd "out") "overlays") target) "work")) ∈ s.trace := by
  have H := overlayInit_run cx hex om fm target sd
  rw [h] at H
  obtain ⟨_, layers', hl', ho, ⟨t1, t2, htr, hm1, hm2⟩⟩ := H
  rw [hl] at hl'
  injection hl' with he
  subst he
  refine ⟨ho, ?_⟩
  rw [htr]
  simp [hm2]

theorem overlay_dirs_aliased_check :
    sdmRun.overlay_dirs = some
      (["qcom-LA.UM.7.3-incoming", "keystone"].map
        (fun d => pjoin (pjoin "/src" "overlays") d) ++ ["/tmp/ovtmp_1", "/src"]) ∧
    Event.cmd (overlayMountCmd "/src"
      (["qcom-LA.UM.7.3-incoming", "keystone"].map
        (fun d => pjoin (pjoin "/src" "overlays") d) ++ ["/tmp/ovtmp_1", "/src"])
      (pjoin (pjoin (pjoin (pjoin "/src" "out") "overlays") "sdm845") "artifacts")
      (pjoin (pjoin (pjoin (pjoin "/src" "out") "overlays") "sdm845") "work")) ∈ sdmRun.trace :=
  overlay_dirs_aliased ctxDirs OVERLAY_MAP FS_VIEW_MAP "sdm845" "/src"
    ["qcom-LA.UM.7.3-incoming", "keystone"] sdmRun (fun _ => rfl) rfl rfl

/-- C1 (amended): for a target `T` configured with layers `[A, B]` and
source root `S`, the union-mount command issued at setup has options with
`lowerdir` equal to `S/overlays/A:S/overlays/B:<synthetic>:S` — configured
overlays in declared order, then the per-session synthetic writable layer,
then the source root last — and `upperdir`/`workdir` under
`S/out/overlays/T/` (`artifacts` and `work`). (The claim's stated order,
source root before the synthetic layer, is refuted by
`lowerdir_order_cex`.) -/
theorem union_mount_options (cx : Ctx) (om : List (String × List String))
    (fm : List (String × List (Path × Path))) (target : String) (sd A B : Path) (s : St)
    (hex : ∀ c, cx.execOk c = true)
    (hl : lookupA om target = some [A, B])
    (h : overlayInit cx om fm target sd = .ok s) :
    Event.cmd (overlayMountCmd sd
      [pjoin (pjoin sd "overlays") A, pjoin (pjoin sd "overlays") B, "/tmp/ovtmp_1", sd]
      (pjoin (pjoin (pjoin (pjoin sd "out") "overlays") target) "artifacts")
      (pjoin (pjoin (pjoin (pjoin sd "out") "overlays") target) "work")) ∈ s.trace := by
  have H := (overlay_dirs_aliased cx om fm target sd [A, B] s hex hl h).2
  simpa using H

theorem union_mount_options_check :
    Event.cmd (overlayMountCmd "/src"
      [pjoin (pjoin "/src" "overlays") "qcom-LA.UM.7.3-incoming",
       pjoin (pjoin "/src" "overlays") "keystone", "/tmp/ovtmp_1", "/src"]
      (pjoin (pjoin (pjoin (pjoin "/src" "out") "overlays") "sdm845") "artifacts")
      (pjoin (pjoin (pjoin (pjoin "/src" "out") "overlays") "sdm845") "work")) ∈ sdmRun.trace :=
  union_mount_options ctxDirs OVERLAY_MAP FS_VIEW_MAP "sdm845" "/src"
    "qcom-LA.UM.7.3-incoming" "keystone" sdmRun (fun _ => rfl) rfl rfl

/-- C1 counterexample: on target `sdm845` (layers `A = qcom-LA.UM.7.3-incoming`,
`B = keystone`) with source root `/src`, the union-mount command actually
issued carries `lowerdir=/src/overlays/A:/src/overlays/B:/tmp/ovtmp_1:/src`
— the synthetic layer comes before the source root — which differs from the
claimed `.../A:.../B:/src:<synthetic>` ordering. The full run result is
exhibited; the second conjunct records that the actual options string is not
the claimed one. -/
theorem lowerdir_order_cex :
    overlayInit ctxDirs OVERLAY_MAP FS_VIEW_MAP "sdm845" "/src" =
      .ok { dirsMade := ["/tmp/outtmp_0", "/tmp/ovtmp_1"],
            filesMade := ["/tmp/ovtmp_1/overlays"],
            ctr := 2,
            trace := [Event.mkdtempE "/tmp/outtmp_0",
                      Event.cmd ["sudo", "mount", "--bind", "/src/out", "/tmp/outtmp_0"],
                      Event.mkdtempE "/tmp/ovtmp_1",
                      Event.touch "/tmp/ovtmp_1/overlays",
                      Event.cmd ["sudo", "mount", "--types", "overlay", "--options",
                        "lowerdir=/src/overlays/qcom-LA.UM.7.3-incoming:/src/overlays/keystone:/tmp/ovtmp_1:/src,upperdir=/src/out/overlays/sdm845/artifacts,workdir=/src/out/overlays/sdm845/work",
                        "overlay", "/src"],
                      Event.cmd ["sudo", "mount", "--bind", "/tmp/outtmp_0", "/src/out"]],
            mounts := [⟨some ["sudo", "mount", "--bind", "/src/out", "/tmp/outtmp_0"],
                        some ["sudo", "umount", "/tmp/outtmp_0"], false⟩,
                       ⟨some ["sudo", "mount", "--types", "overlay", "--options",
                          "lowerdir=/src/overlays/qcom-LA.UM.7.3-incoming:/src/overlays/keystone:/tmp/ovtmp_1:/src,upperdir=/src/out/overlays/sdm845/artifacts,workdir=/src/out/overlays/sdm845/work",
                          "overlay", "/src"],
                        some ["sudo", "umount", "/src"], false⟩,
                       ⟨some ["sudo", "mount", "--bind", "/tmp/outtmp_0", "/src/out"],
                        some ["sudo", "umount", "/src/out"], false⟩],
            overlay_dirs := some ["/src/overlays/qcom-LA.UM.7.3-incoming",
                                  "/src/overlays/keystone", "/tmp/ovtmp_1", "/src"] } ∧
    ("lowerdir=/src/overlays/qcom-LA.UM.7.3-incoming:/src/overlays/keystone:/tmp/ovtmp_1:/src,upperdir=/src/out/overlays/sdm845/artifacts,workdir=/src/out/overlays/sdm845/work" : String) ≠
    "lowerdir=/src/overlays/qcom-LA.UM.7.3-incoming:/src/overlays/keystone:/src:/tmp/ovtmp_1,upperdir=/src/out/overlays/sdm845/artifacts,workdir=/src/out/overlays/sdm845/work" := by
  exact ⟨rfl, by decide⟩

/-- C9: for every session, setup creates the synthetic writable layer as a
fresh temporary directory and the whiteout — an empty file written with
`open(p, 'a').close()` at the relative path `overlays` inside that
just-created (hence empty) directory, so a zero-byte file — before the
union-mount command is issued: the trace splits around the whiteout
creation, with the layer's `mkdtemp` before it and the union-mount command
strictly after it, so the merged view hides the overlay definition
directory. -/
theorem whiteout_before_union (cx : Ctx) (om : List (String × List String))
    (fm : List (String × List (Path × Path))) (target : String) (sd : Path)
    (layers : List String) (s : St)
    (hex : ∀ c, cx.execOk c = true)
    (hl : lookupA om target = some layers)
    (h : overlayInit cx om fm target sd = .ok s) :
    ∃ t1 t2, s.trace = t1 ++ [Event.touch (pjoin "/tmp/ovtmp_1" "overlays")] ++ t2 ∧
      Event.mkdtempE "/tmp/ovtmp_1" ∈ t1 ∧
      Event.cmd (overlayMountCmd sd
        (layers.map (fun d => pjoin (pjoin sd "overlays") d) ++ ["/tmp/ovtmp_1", sd])
        (pjoin (pjoin (pjoin (pjoin sd "out") "overlays") target) "artifacts")
        (pjoin (pjoin (pjoin (pjoin sd "out") "overlays") target) "work")) ∈ t2 := by
  have H := overlayInit_run cx hex om fm target sd
  rw [h] at H
  obtain ⟨_, layers', hl', _, hrest⟩ := H
  rw [hl] at hl'
  injection hl' with he
  subst he
  exact hrest

theorem whiteout_before_union_check :
    ∃ t1 t2, sdmRun.trace = t1 ++ [Event.touch (pjoin "/tmp/ovtmp_1" "overlays")] ++ t2 ∧
      Event.mkdtempE "/tmp/ovtmp_1" ∈ t1 ∧
      Event.cmd (overlayMountCmd "/src"
        (["qcom-LA.UM.7.3-incoming", "keystone"].map
          (fun d => pjoin (pjoin "/src" "overlays") d) ++ ["/tmp/ovtmp_1", "/src"])
        (pjoin (pjoin (pjoin (pjoin "/src" "out") "overlays") "sdm845") "artifacts")
        (pjoin (pjoin (pjoin (pjoin "/src" "out") "overlays") "sdm845") "work")) ∈ t2 :=
  whiteout_before_union ctxDirs OVERLAY_MAP FS_VIEW_MAP "sdm845" "/src"
    ["qcom-LA.UM.7.3-incoming", "keystone"] sdmRun (fun _ => rfl) rfl rfl

/-- C2 counterexample: opening a session on the unconfigured target
`unknown` does fail with `KeyError`, but not with zero mount operations: the
run exhibited below has already acquired the out-directory preservation bind
mount (`sudo mount --bind /src/out /tmp/outtmp_0` — one acquire command in
the trace, one live mount in `_mounts`) and created the `out` temporary
directory before the `OVERLAY_MAP[target]` lookup raises. -/
theorem unknown_target_cex :
    overlayInit ctxDirs OVERLAY_MAP FS_VIEW_MAP "unknown" "/src" =
      .error (.keyError "unknown",
        { dirsMade := ["/tmp/outtmp_0"], filesMade := [], ctr := 1,
          trace := [Event.mkdtempE "/tmp/outtmp_0",
                    Event.cmd ["sudo", "mount", "--bind", "/src/out", "/tmp/outtmp_0"]],
          mounts := [⟨some ["sudo", "mount", "--bind", "/src/out", "/tmp/outtmp_0"],
                      some ["sudo", "umount", "/tmp/outtmp_0"], false⟩],
          overlay_dirs := none }) := rfl

/-- C2 (amended): opening a session on a target absent from the configured
layer table fails with `KeyError` (the code's UnknownTargetError), but only
after exactly one mount operation — the out-directory preservation bind
mount, acquired before the lookup; no other command runs, and finalizing the
partially constructed session releases that one mount. -/
theorem unknown_target_one_bind (cx : Ctx) (om : List (String × List String))
    (fm : List (String × List (Path × Path))) (target : String) (sd : Path)
    (hex : ∀ c, cx.execOk c = true) (hnone : lookupA om target = none) :
    ∃ s, overlayInit cx om fm target sd = .error (.keyError target, s) ∧
      cmdsOf s.trace = [["sudo", "mount", "--bind", pjoin sd "out", "/tmp/outtmp_0"]] ∧
      acqCmds s.mounts = [["sudo", "mount", "--bind", pjoin sd "out", "/tmp/outtmp_0"]] ∧
      (teardown s).1 = [Event.cmd ["sudo", "umount", "/tmp/outtmp_0"]] := by
  simp only [overlayInit]
  obtain ⟨⟨tq, htq, hcq⟩, hmq, hoq, hrq, hiq⟩ :=
    makedirs_quiet cx (pjoin sd "out") (quiet_refl ({} : St))
  have hname : (mkdtempS "outtmp_" (makedirsIfMissingS cx (pjoin sd "out") {})).1 =
      "/tmp/outtmp_0" := by
    rw [mkdtempS_fst, hrq]; rfl
  obtain ⟨s2, tb, heqB, hcb, htrb, hmb, hob, hrb, hib⟩ :=
    bindMountS_run cx hex (pjoin sd "out")
      (mkdtempS "outtmp_" (makedirsIfMissingS cx (pjoin sd "out") {})).1
      (mkdtempS "outtmp_" (makedirsIfMissingS cx (pjoin sd "out") {})).2
  simp only [heqB, hnone]
  have hm2 : s2.mounts =
      [⟨some ["sudo", "mount", "--bind", pjoin sd "out", "/tmp/outtmp_0"],
        some ["sudo", "umount", "/tmp/outtmp_0"], false⟩] := by
    rw [hmb, mkdtempS_snd_mounts, hmq, hname]
    simp
  refine ⟨s2, rfl, ?_, ?_, ?_⟩
  · rw [htrb, mkdtempS_snd_trace, htq, hname]
    simp [hcq, hcb]
  · rw [hm2]
    simp [acqCmds]
  · rw [teardown, hm2]
    simp [delAll, Mount.del]

theorem unknown_target_one_bind_check :
    ∃ s, overlayInit ctxDirs OVERLAY_MAP FS_VIEW_MAP "unknown" "/src" =
        .error (.keyError "unknown", s) ∧
      cmdsOf s.trace = [["sudo", "mount", "--bind", pjoin "/src" "out", "/tmp/outtmp_0"]] ∧
      acqCmds s.mounts = [["sudo", "mount", "--bind", pjoin "/src" "out", "/tmp/outtmp_0"]] ∧
      (teardown s).1 = [Event.cmd ["sudo", "umount", "/tmp/outtmp_0"]] :=
  unknown_target_one_bind ctxDirs OVERLAY_MAP FS_VIEW_MAP "unknown" "/src"
    (fun _ => rfl) rfl

/-- C3 counterexample: on target `aosp_arm64` with the first remap rule's
source missing, setup does fail with `ValueError` (the code's PathError),
but it does not leave zero active mounts at the moment the error returns:
the exhibited error state still holds the acquired out-directory bind mount
(one live mount, no release command anywhere in the trace). The release
happens only later, when the runtime finalizes the partially constructed
session. -/
theorem bad_remap_cex :
    overlayInit ctx3 OVERLAY_MAP FS_VIEW_MAP "aosp_arm64" "/src" =
      .error (.valueError
        "/src/overlays/qcom-LA.UM.7.3-incoming/vendor/qcom/opensource/interfaces",
        { dirsMade := ["/tmp/outtmp_0", "/tmp/ovtmp_1"],
          filesMade := ["/tmp/ovtmp_1/overlays"],
          ctr := 2,
          trace := [Event.mkdtempE "/tmp/outtmp_0",
                    Event.cmd ["sudo", "mount", "--bind", "/src/out", "/tmp/outtmp_0"],
                    Event.mkdtempE "/tmp/ovtmp_1",
                    Event.touch "/tmp/ovtmp_1/overlays"],
          mounts := [⟨some ["sudo", "mount", "--bind", "/src/out", "/tmp/outtmp_0"],
                      some ["sudo", "umount", "/tmp/outtmp_0"], false⟩],
          overlay_dirs := none }) := rfl

/-- C3 (amended): when a remap rule's source is neither a file nor a
directory, setup fails with `ValueError` (PathError) — see `bad_remap_cex` —
and every command run up to that point is the acquire command of a mount
still held by the partially constructed session (so no release has run
before the error propagates); finalizing that session releases each acquired
mount exactly once, in reverse acquisition order. -/
theorem bad_remap_rollback (cx : Ctx) (om : List (String × List String))
    (fm : List (String × List (Path × Path))) (target : String) (sd p : Path) (s : St)
    (hex : ∀ c, cx.execOk c = true)
    (h : overlayInit cx om fm target sd = .error (.valueError p, s)) :
    cmdsOf s.trace = acqCmds s.mounts ∧
    (teardown s).1 = (relEvents s.mounts).reverse := by
  have H := overlayInit_run cx hex om fm target sd
  rw [h] at H
  exact ⟨H.1, teardown_of_good s H.2⟩

theorem bad_remap_rollback_check :
    cmdsOf badRun.trace = acqCmds badRun.mounts ∧
    (teardown badRun).1 = (relEvents badRun.mounts).reverse :=
  bad_remap_rollback ctx3 OVERLAY_MAP FS_VIEW_MAP "aosp_arm64" "/src"
    "/src/overlays/qcom-LA.UM.7.3-incoming/vendor/qcom/opensource/interfaces"
    badRun (fun _ => rfl) rfl

theorem fsAllDir_pexists (s : St) (p : Path) : pexistsS (ctxAll fsAllDir) s p = true := by
  simp [pexistsS, isfileS, isdirS, ctxAll, fsAllDir]

theorem fsAllDir_isdir (s : St) (p : Path) : isdirS (ctxAll fsAllDir) s p = true := by
  simp [isdirS, ctxAll, fsAllDir]

theorem fsAllDir_isfile (s : St) (p : Path) :
    isfileS (ctxAll fsAllDir) s p = memb p s.filesMade := by
  simp [isfileS, ctxAll, fsAllDir]

theorem ctxAll_execOk (fs : Path → FKind) (c : List String) :
    (ctxAll fs).execOk c = true := rfl

theorem tmpName0 : ("/tmp/" ++ "outtmp_" ++ toString (0 : Nat) : String) = "/tmp/outtmp_0" := rfl

theorem tmpName1 : ("/tmp/" ++ "ovtmp_" ++ toString (1 : Nat) : String) = "/tmp/ovtmp_1" := rfl

theorem tmpName2 : ("/tmp/" ++ "bindtmp_" ++ toString (2 : Nat) : String) = "/tmp/bindtmp_2" := rfl

/-- C7: for every remap rule whose source resolves to a directory (here over
a filesystem where every path is a directory), setup produces exactly two
bind-mount operations for the rule — an intermediate bind of the rule's
source onto the fresh temporary `bindtmp_` directory, acquired before the
union mount, then a final bind of that temporary directory onto the rule's
destination under the source root, acquired after it — and teardown runs the
two corresponding unmounts in matching reverse order (the final bind is
undone first, the union mount in between, the intermediate bind after). -/
theorem dir_remap_two_binds (om : List (String × List String))
    (fm : List (String × List (Path × Path))) (target : String) (sd rf rt : Path)
    (ls : List String) (s : St)
    (hl : lookupA om target = some ls)
    (hf : lookupA fm target = some [(rf, rt)])
    (hne : pjoin sd rf ≠ pjoin "/tmp/ovtmp_1" "overlays")
    (h : overlayInit (ctxAll fsAllDir) om fm target sd = .ok s) :
    cmdsOf s.trace =
      [["sudo", "mount", "--bind", pjoin sd "out", "/tmp/outtmp_0"],
       ["sudo", "mount", "--bind", pjoin sd rf, "/tmp/bindtmp_2"],
       overlayMountCmd sd (ls.map (fun d => pjoin (pjoin sd "overlays") d) ++ ["/tmp/ovtmp_1", sd])
         (pjoin (pjoin (pjoin (pjoin sd "out") "overlays") target) "artifacts")
         (pjoin (pjoin (pjoin (pjoin sd "out") "overlays") target) "work"),
       ["sudo", "mount", "--bind", "/tmp/outtmp_0", pjoin sd "out"],
       ["sudo", "mount", "--bind", "/tmp/bindtmp_2", pjoin sd rt]] ∧
    (teardown s).1 =
      [Event.cmd ["sudo", "umount", pjoin sd rt],
       Event.cmd ["sudo", "umount", pjoin sd "out"],
       Event.cmd ["sudo", "umount", sd],
       Event.cmd ["sudo", "umount", "/tmp/bindtmp_2"],
       Event.cmd ["sudo", "umount", "/tmp/outtmp_0"]] := by
  have hne' : (pjoin sd rf == pjoin "/tmp/ovtmp_1" "overlays") = false :=
    beq_eq_false_iff_ne.mpr hne
  simp only [overlayInit, makedirsIfMissingS, bindMountS, copyFileMountS, addMountS,
    mountNew, mkdtempS, touchS, mkdirS, fsViewStep, postBindsS, mountOverlayS,
    ensureDirS, fsAllDir_pexists, fsAllDir_isdir, fsAllDir_isfile, memb,
    hl, hf, hne', tmpName0, tmpName1, tmpName2, ctxAll_execOk, Option.getD,
    if_true, if_false, Bool.or_false, Bool.false_or, List.nil_append, Nat.reduceAdd,
    Bool.false_eq_true, reduceIte,
    List.append_assoc, List.cons_append, List.singleton_append] at h
  injection h with he
  subst he
  exact ⟨rfl, rfl⟩

theorem dir_remap_two_binds_check :
    cmdsOf (stOf (overlayInit (ctxAll fsAllDir) [("t", ["u1"])]
        [("t", [("overlays/u1/from_dir", "to_dir")])] "t" "/src")).trace =
      [["sudo", "mount", "--bind", pjoin "/src" "out", "/tmp/outtmp_0"],
       ["sudo", "mount", "--bind", pjoin "/src" "overlays/u1/from_dir", "/tmp/bindtmp_2"],
       overlayMountCmd "/src"
         (["u1"].map (fun d => pjoin (pjoin "/src" "overlays") d) ++ ["/tmp/ovtmp_1", "/src"])
         (pjoin (pjoin (pjoin (pjoin "/src" "out") "overlays") "t") "artifacts")
         (pjoin (pjoin (pjoin (pjoin "/src" "out") "overlays") "t") "work"),
       ["sudo", "mount", "--bind", "/tmp/outtmp_0", pjoin "/src" "out"],
       ["sudo", "mount", "--bind", "/tmp/bindtmp_2", pjoin "/src" "to_dir"]] ∧
    (teardown (stOf (overlayInit (ctxAll fsAllDir) [("t", ["u1"])]
        [("t", [("overlays/u1/from_dir", "to_dir")])] "t" "/src"))).1 =
      [Event.cmd ["sudo", "umount", pjoin "/src" "to_dir"],
       Event.cmd ["sudo", "umount", pjoin "/src" "out"],
       Event.cmd ["sudo", "umount", "/src"],
       Event.cmd ["sudo", "umount", "/tmp/bindtmp_2"],
       Event.cmd ["sudo", "umount", "/tmp/outtmp_0"]] :=
  dir_remap_two_binds [("t", ["u1"])] [("t", [("overlays/u1/from_dir", "to_dir")])]
    "t" "/src" "overlays/u1/from_dir" "to_dir" ["u1"] _ rfl rfl (by decide) rfl

theorem fsFileAt_pexists (q : Path) (s : St) (p : Path) :
    pexistsS (ctxAll (fsFileAt q)) s p = true := by
  by_cases hpq : p = q <;>
    simp [pexistsS, isfileS, isdirS, ctxAll, fsFileAt, hpq]

theorem fsFileAt_isfile_self (q : Path) (s : St) :
    isfileS (ctxAll (fsFileAt q)) s q = true := by
  simp [isfileS, ctxAll, fsFileAt]

theorem fsFileAt_isdir_ne (q p : Path) (h : p ≠ q) (s : St) :
    isdirS (ctxAll (fsFileAt q)) s p = true := by
  simp [isdirS, ctxAll, fsFileAt, h]

/-- C8: for every remap rule whose source resolves to a regular file, setup
runs a copy of the source file into the synthetic writable layer at the
rule's destination path, and teardown runs a delete (`rm -f`) targeting
exactly the same destination path as the copy. The final conjunct records
the parent-directory behaviour of `_CopyFileMount`: whenever the
destination's parent does not exist, it is created (`os.makedirs`) before
the copy. -/
theorem file_remap_copy_delete (om : List (String × List String))
    (fm : List (String × List (Path × Path))) (target : String) (sd rf rt : Path)
    (ls : List String) (s : St)
    (hl : lookupA om target = some ls)
    (hf : lookupA fm target = some [(rf, rt)])
    (h1 : pjoin (pjoin sd "out") "overlays" ≠ pjoin sd rf)
    (h2 : pjoin (pjoin (pjoin sd "out") "overlays") target ≠ pjoin sd rf)
    (h3 : pjoin (pjoin (pjoin (pjoin sd "out") "overlays") target) "work" ≠ pjoin sd rf)
    (h4 : pjoin (pjoin (pjoin (pjoin sd "out") "overlays") target) "artifacts" ≠ pjoin sd rf)
    (h : overlayInit (ctxAll (fsFileAt (pjoin sd rf))) om fm target sd = .ok s) :
    cmdsOf s.trace =
      [["sudo", "mount", "--bind", pjoin sd "out", "/tmp/outtmp_0"],
       ["cp", pjoin sd rf, pjoin "/tmp/ovtmp_1" rt],
       overlayMountCmd sd (ls.map (fun d => pjoin (pjoin sd "overlays") d) ++ ["/tmp/ovtmp_1", sd])
         (pjoin (pjoin (pjoin (pjoin sd "out") "overlays") target) "artifacts")
         (pjoin (pjoin (pjoin (pjoin sd "out") "overlays") target) "work"),
       ["sudo", "mount", "--bind", "/tmp/outtmp_0", pjoin sd "out"]] ∧
    (teardown s).1 =
      [Event.cmd ["sudo", "umount", pjoin sd "out"],
       Event.cmd ["sudo", "umount", sd],
       Event.cmd ["rm", "-f", pjoin "/tmp/ovtmp_1" rt],
       Event.cmd ["sudo", "umount", "/tmp/outtmp_0"]] ∧
    (∀ (cx' : Ctx) (sp dp : Path) (s₀ : St),
       pexistsS cx' s₀ (dirnameS dp) = false →
       Event.mkdirE (dirnameS dp) ∈ (stOf (copyFileMountS cx' sp dp s₀)).trace) := by
  have e1 := fsFileAt_isdir_ne (pjoin sd rf) (pjoin (pjoin sd "out") "overlays") h1
  have e2 := fsFileAt_isdir_ne (pjoin sd rf) (pjoin (pjoin (pjoin sd "out") "overlays") target) h2
  have e3 := fsFileAt_isdir_ne (pjoin sd rf)
    (pjoin (pjoin (pjoin (pjoin sd "out") "overlays") target) "work") h3
  have e4 := fsFileAt_isdir_ne (pjoin sd rf)
    (pjoin (pjoin (pjoin (pjoin sd "out") "overlays") target) "artifacts") h4
  simp only [overlayInit, makedirsIfMissingS, bindMountS, copyFileMountS, addMountS,
    mountNew, mkdtempS, touchS, mkdirS, fsViewStep, postBindsS, mountOverlayS,
    ensureDirS, fsFileAt_pexists, fsFileAt_isfile_self, e1, e2, e3, e4, memb,
    hl, hf, tmpName0, tmpName1, tmpName2, ctxAll_execOk, Option.getD,
    if_true, if_false, Bool.or_false, Bool.false_or, Bool.true_or, List.nil_append,
    Nat.reduceAdd, Bool.false_eq_true, reduceIte,
    List.append_assoc, List.cons_append, List.singleton_append] at h
  injection h with he
  subst he
  refine ⟨rfl, rfl, ?_⟩
  intro cx' sp dp s₀ hpe
  unfold copyFileMountS makedirsIfMissingS
  cases hok : cx'.execOk ["cp", sp, dp] <;>
    simp [addMountS, mountNew, hok, stOf, mkdirS, hpe]

theorem file_remap_copy_delete_check :
    cmdsOf (stOf (overlayInit (ctxAll (fsFileAt (pjoin "/src" "overlays/u1/from_file")))
        [("t", ["u1"])] [("t", [("overlays/u1/from_file", "to_file")])] "t" "/src")).trace =
      [["sudo", "mount", "--bind", pjoin "/src" "out", "/tmp/outtmp_0"],
       ["cp", pjoin "/src" "overlays/u1/from_file", pjoin "/tmp/ovtmp_1" "to_file"],
       overlayMountCmd "/src"
         (["u1"].map (fun d => pjoin (pjoin "/src" "overlays") d) ++ ["/tmp/ovtmp_1", "/src"])
         (pjoin (pjoin (pjoin (pjoin "/src" "out") "overlays") "t") "artifacts")
         (pjoin (pjoin (pjoin (pjoin "/src" "out") "overlays") "t") "work"),
       ["sudo", "mount", "--bind", "/tmp/outtmp_0", pjoin "/src" "out"]] ∧
    (teardown (stOf (overlayInit (ctxAll (fsFileAt (pjoin "/src" "overlays/u1/from_file")))
        [("t", ["u1"])] [("t", [("overlays/u1/from_file", "to_file")])] "t" "/src"))).1 =
      [Event.cmd ["sudo", "umount", pjoin "/src" "out"],
       Event.cmd ["sudo", "umount", "/src"],
       Event.cmd ["rm", "-f", pjoin "/tmp/ovtmp_1" "to_file"],
       Event.cmd ["sudo", "umount", "/tmp/outtmp_0"]] ∧
    (∀ (cx' : Ctx) (sp dp : Path) (s₀ : St),
       pexistsS cx' s₀ (dirnameS dp) = false →
       Event.mkdirE (dirnameS dp) ∈ (stOf (copyFileMountS cx' sp dp s₀)).trace) :=
  file_remap_copy_delete [("t", ["u1"])] [("t", [("overlays/u1/from_file", "to_file")])]
    "t" "/src" "overlays/u1/from_file" "to_file" ["u1"] _
    rfl rfl (by decide) (by decide) (by decide) (by decide) rfl

end Keystone
